import Mathlib

/-!
# Verification of the `store` index subsystem (`src/store/index.go`)

Shallow embedding of the index subsystem of the needle store: the 16-byte
big-endian record codec, the handoff ring buffer, the indexer state with its
sticky fault, the background drain loop, and the scan/recovery pass.
Machine integers are modelled as `Nat`/`Int` with explicit two's-complement
reductions where the Go code truncates.  File contents and writer buffers are
byte lists (`List Nat`, each entry `< 256` for real files).

Definitions follow the Go source `src/store/index.go`; the handoff ring and
the byte-order primitives live outside that file in the repository and are
modelled from the spec where noted.
-/

namespace Store

/-! ## Constants (index.go lines 32-48) -/

/-- Capacity of the wake channel (`signalNum = 1`). -/
abbrev signalNum : Nat := 1

/-- The wake token value sent on the channel (`indexReady = 1`). -/
abbrev indexReady : Nat := 1

abbrev indexKeySize : Nat := 8
abbrev indexOffsetSize : Nat := 4
abbrev indexSizeSize : Nat := 4

/-- On-disk width of one index record: 8 + 4 + 4 = 16 bytes. -/
abbrev indexSize : Nat := indexKeySize + indexOffsetSize + indexSizeSize

abbrev indexKeyOffset : Nat := 0
abbrev indexOffsetOffset : Nat := indexKeyOffset + indexKeySize
abbrev indexSizeOffset : Nat := indexOffsetOffset + indexOffsetSize

/-- Go `indexSignalDuration = time.Second * 30`, modelled in whole seconds. -/
abbrev indexSignalDuration : Nat := 30

/-- Modelled from the spec: `NeedleMaxSize` is defined in a sibling file of
the repository (not under `src/`); the spec fixes the maximum record/object
size at 1 MiB (`MaxRecordSize = 1 MiB`), used both to size the write buffer
and to bound scan validation. -/
abbrev NeedleMaxSize : Int := 1048576

/-! ## The record and its codec

`Index` is the 16-byte locator record: `key int64`, `offset uint32`,
`size int32`, written big-endian.  The Go decoder is `(*Index).parse`
(index.go lines 70-75) over `BigEndian.Int64/Uint32/Int32`; the encoder is
the byte sequence produced by `(*Indexer).Write` (index.go lines 163-180)
through `BigEndian.WriteInt64/WriteUint32/WriteInt32`.  The `BigEndian`
primitives live outside `src/`; they are modelled from the spec
("big-endian read/write primitives for signed/unsigned 64- and 32-bit
integers"), with signed values in two's complement. -/

structure Index where
  Key : Int
  Offset : Nat
  Size : Int
deriving DecidableEq

/-- Modelled from the spec: big-endian unsigned 32-bit read of the first four
bytes of a buffer (`BigEndian.Uint32`). -/
def beUint32 : List Nat → Nat
  | b0 :: b1 :: b2 :: b3 :: _ => ((b0 * 256 + b1) * 256 + b2) * 256 + b3
  | _ => 0

/-- Modelled from the spec: big-endian unsigned 64-bit read of the first
eight bytes of a buffer (`BigEndian.Uint64`). -/
def beUint64 : List Nat → Nat
  | b0 :: b1 :: b2 :: b3 :: b4 :: b5 :: b6 :: b7 :: _ =>
      ((((((b0 * 256 + b1) * 256 + b2) * 256 + b3) * 256 + b4) * 256 + b5)
        * 256 + b6) * 256 + b7
  | _ => 0

/-- Modelled from the spec: big-endian signed 32-bit read, two's complement
(`BigEndian.Int32`). -/
def beInt32 (b : List Nat) : Int :=
  if beUint32 b < 2147483648 then (beUint32 b : Int)
  else (beUint32 b : Int) - 4294967296

/-- Modelled from the spec: big-endian signed 64-bit read, two's complement
(`BigEndian.Int64`). -/
def beInt64 (b : List Nat) : Int :=
  if beUint64 b < 9223372036854775808 then (beUint64 b : Int)
  else (beUint64 b : Int) - 18446744073709551616

/-- Modelled from the spec: the four bytes written by
`BigEndian.WriteUint32`, most significant first. -/
def putUint32 (n : Nat) : List Nat :=
  [n / 16777216 % 256, n / 65536 % 256, n / 256 % 256, n % 256]

/-- Modelled from the spec: the eight bytes written by
`BigEndian.WriteUint64`, most significant first. -/
def putUint64 (n : Nat) : List Nat :=
  [n / 72057594037927936 % 256, n / 281474976710656 % 256,
   n / 1099511627776 % 256, n / 4294967296 % 256,
   n / 16777216 % 256, n / 65536 % 256, n / 256 % 256, n % 256]

/-- Modelled from the spec: bytes of `BigEndian.WriteInt64`, the two's
complement of the signed value. -/
def putInt64 (k : Int) : List Nat :=
  putUint64 (k % 18446744073709551616).toNat

/-- Modelled from the spec: bytes of `BigEndian.WriteInt32`. -/
def putInt32 (s : Int) : List Nat :=
  putUint32 (s % 4294967296).toNat

/-- Go `(*Index).parse` (index.go lines 70-75): key from bytes 0-7, offset from
bytes 8-11, size from bytes 12-15, all big-endian. -/
def Index.parse (buf : List Nat) : Index :=
  { Key := beInt64 buf
    Offset := beUint32 (buf.drop indexOffsetOffset)
    Size := beInt32 (buf.drop indexSizeOffset) }

/-- The byte sequence `(*Indexer).Write` (index.go lines 163-180) emits for
one record: key, then offset, then size, each big-endian. -/
def Index.encode (ix : Index) : List Nat :=
  putInt64 ix.Key ++ putUint32 ix.Offset ++ putInt32 ix.Size

/-- Concatenated encoding of a record sequence, the file image produced by
draining those records in order. -/
def encodeAll : List Index → List Nat
  | [] => []
  | ix :: rest => ix.encode ++ encodeAll rest

/-- A record is in-range for the machine representation and valid for scan:
`key` fits in a signed 64-bit word, `offset` in an unsigned 32-bit word, and
`1 ≤ size ≤ NeedleMaxSize` (the spec's validity invariant). -/
def validIndex (ix : Index) : Prop :=
  -9223372036854775808 ≤ ix.Key ∧ ix.Key < 9223372036854775808 ∧
    ix.Offset < 4294967296 ∧ 1 ≤ ix.Size ∧ ix.Size ≤ NeedleMaxSize

instance (ix : Index) : Decidable (validIndex ix) := by
  unfold validIndex; infer_instance

theorem encode_length (ix : Index) : ix.encode.length = 16 := by
  simp [Index.encode, putInt64, putInt32, putUint64, putUint32]

/-- Round-trip of the codec: decoding the 16 bytes written for an in-range
record recovers the record. -/
theorem parse_encode (key : Int) (offset : Nat) (size : Int)
    (hk1 : -9223372036854775808 ≤ key) (hk2 : key < 9223372036854775808)
    (ho : offset < 4294967296) (hs1 : -2147483648 ≤ size)
    (hs2 : size < 2147483648) :
    Index.parse (Index.encode ⟨key, offset, size⟩) = ⟨key, offset, size⟩ := by
  simp only [Index.encode, Index.parse, putInt64, putInt32, putUint64,
    putUint32, List.cons_append, List.nil_append]
  have hdrop8 : ∀ (a b c d e f g h : Nat) (l : List Nat),
      List.drop indexOffsetOffset (a :: b :: c :: d :: e :: f :: g :: h :: l) = l :=
    fun _ _ _ _ _ _ _ _ _ => rfl
  have hdrop12 : ∀ (a b c d e f g h p q r s : Nat) (l : List Nat),
      List.drop indexSizeOffset
        (a :: b :: c :: d :: e :: f :: g :: h :: p :: q :: r :: s :: l) = l :=
    fun _ _ _ _ _ _ _ _ _ _ _ _ _ => rfl
  rw [hdrop8, hdrop12]
  simp only [beInt64, beInt32, beUint64, beUint32]
  have hkey : beInt64 (putInt64 key) = key := by
    simp only [putInt64, putUint64, beInt64, beUint64]
    omega
  simp only [putInt64, putUint64, beInt64, beUint64] at hkey
  simp only [Index.mk.injEq]
  refine ⟨hkey, ?_, ?_⟩
  · omega
  · omega

/-- C6: codec round-trip — for every signed 64-bit `key`, unsigned 32-bit
`offset`, and `size ∈ [1, NeedleMaxSize]`, encoding the record as 16
big-endian bytes (key at bytes 0-7, offset at 8-11, size at 12-15) and then
decoding those bytes yields the identical record. -/
theorem codec_round_trip (key : Int) (offset : Nat) (size : Int)
    (hk1 : -9223372036854775808 ≤ key) (hk2 : key < 9223372036854775808)
    (ho : offset < 4294967296) (hs1 : 1 ≤ size) (hs2 : size ≤ NeedleMaxSize) :
    Index.parse (Index.encode ⟨key, offset, size⟩) = ⟨key, offset, size⟩ :=
  parse_encode key offset size hk1 hk2 ho (by omega)
    (by unfold NeedleMaxSize at hs2; omega)

/-- C6 witness: the round-trip theorem applied at a concrete record with a
negative key. -/
theorem codec_round_trip_witness :
    Index.parse (Index.encode ⟨-5, 128, 200⟩) = ⟨-5, 128, 200⟩ :=
  codec_round_trip (-5) 128 200 (by decide) (by decide) (by decide)
    (by decide) (by decide)

/-! ## Faults

The faults the subsystem distinguishes: ring full (`ErrRingFull` returned by
the handoff buffer), ring empty (`ErrRingEmpty`, the normal end of a drain
pass), `ErrIndexSize` (scan validation fault), and an injected I/O fault of
the underlying writer.  `callerFault` stands for an error returned by a
scan callback. -/

inductive Err where
  | full
  | empty
  | indexSize
  | ioFault
  | callerFault
deriving DecidableEq

/-! ## The buffered writer over the index file

Models `i.bw : *bufio.Writer` over `i.f : *os.File`: `buf` holds bytes
accepted but not yet flushed, `file` the flushed file contents, and `err`
the writer's own sticky error, which is how an underlying I/O failure is
injected.  (The real `bufio.Writer` also flushes on its own when `buf`
exceeds `NeedleMaxSize`; that intermediate flush does not reorder bytes, so
it is omitted: `file ++ buf` is the byte stream in either model.) -/

structure BufWriter where
  buf : List Nat
  file : List Nat
  err : Option Err
deriving DecidableEq

/-- One big-endian field write into the buffered writer: fails (returning
the writer's sticky error) or appends the bytes to the buffer. -/
def BufWriter.writeBytes (w : BufWriter) (bs : List Nat) :
    Option Err × BufWriter :=
  match w.err with
  | some e => (some e, w)
  | none => (none, { w with buf := w.buf ++ bs })

/-- Go `bw.Flush()`: fails with the writer's sticky error or moves the buffered
bytes to the file. -/
def BufWriter.flushBuf (w : BufWriter) : Option Err × BufWriter :=
  match w.err with
  | some e => (some e, w)
  | none => (none, { w with buf := [], file := w.file ++ w.buf })

/-! ## The handoff ring

Modelled from the spec: the `Ring` type is defined elsewhere in the
repository (not under `src/`).  Per spec §3/§4.2 it is a fixed backing
store of capacity `C` with two monotonic cursors taken modulo `C`;
occupancy is `write cursor − read cursor`; `reserveWrite` (`Ring.Set`)
fails with `Error(Full)` when occupancy = C, `reserveRead` (`Ring.Get`)
fails with `Error(Empty)` when occupancy = 0; `SetAdv`/`GetAdv` commit by
advancing a cursor.  `Ring.Set` in Go returns a pointer to the slot, which
the caller populates before committing; reserve and populate are modelled
as one step. -/

structure Ring where
  capacity : Nat
  slots : List Index
  wpos : Nat
  rpos : Nat
deriving DecidableEq

/-- Modelled from the spec: a fresh ring of capacity `c`. -/
def NewRing (c : Nat) : Ring :=
  { capacity := c, slots := List.replicate c ⟨0, 0, 0⟩, wpos := 0, rpos := 0 }

/-- Modelled from the spec: occupancy — committed, undrained slot count. -/
def Ring.Buffered (r : Ring) : Nat := r.wpos - r.rpos

/-- Modelled from the spec: `reserveWrite` plus populating the reserved
slot; `Error(Full)` when occupancy = capacity. -/
def Ring.Set (r : Ring) (ix : Index) : Except Err Ring :=
  if r.Buffered = r.capacity then .error .full
  else .ok { r with slots := r.slots.set (r.wpos % r.capacity) ix }

/-- Modelled from the spec: `commitWrite` — advance the write cursor. -/
def Ring.SetAdv (r : Ring) : Ring := { r with wpos := r.wpos + 1 }

/-- Modelled from the spec: `reserveRead` — the slot at the read cursor, or
`Error(Empty)` when occupancy = 0. -/
def Ring.Get (r : Ring) : Except Err Index :=
  if r.Buffered = 0 then .error .empty
  else .ok (r.slots.getD (r.rpos % r.capacity) ⟨0, 0, 0⟩)

/-- Modelled from the spec: `commitRead` — advance the read cursor. -/
def Ring.GetAdv (r : Ring) : Ring := { r with rpos := r.rpos + 1 }

/-- The committed, undrained records in drain order. -/
def Ring.pending (r : Ring) : List Index :=
  (List.range r.Buffered).map
    (fun j => r.slots.getD ((r.rpos + j) % r.capacity) ⟨0, 0, 0⟩)

/-- Well-formedness of a ring: cursors ordered, occupancy within capacity,
backing store of the fixed capacity.  Holds for `NewRing` and is preserved
by every operation. -/
def Ring.Inv (r : Ring) : Prop :=
  r.rpos ≤ r.wpos ∧ r.wpos - r.rpos ≤ r.capacity ∧
    r.slots.length = r.capacity

instance (r : Ring) : Decidable r.Inv := by
  unfold Ring.Inv; infer_instance

/-! ## The indexer instance -/

/-- Go `Indexer` (index.go lines 51-60).  `bw` subsumes the file handle `f`
(its `file` component is the on-disk contents); `signalPending` is the
state of the capacity-1 wake channel (`signal chan int`); `signalClosed`
records that `Close` has closed that channel; `LastErr` is the sticky
fault; `signalTime` the last-wake timestamp (whole seconds); `fileOpen`
whether the file handle is open. -/
structure Indexer where
  bw : BufWriter
  sigNum : Nat
  signalPending : Bool
  signalClosed : Bool
  ring : Ring
  LastErr : Option Err
  signalTime : Nat
  fileOpen : Bool
deriving DecidableEq

/-- Go `NewIndexer` (index.go lines 88-116) on a file currently holding
`file` bytes, ring capacity `ring`, at time `now`: empty write buffer,
fresh ring, `sigNum = ring / 2`, no pending wake, no sticky fault.
(The `Fallocate` space reservation does not change file contents.) -/
def NewIndexer (file : List Nat) (ring : Nat) (now : Nat) : Indexer :=
  { bw := { buf := [], file := file, err := none }
    sigNum := ring / 2
    signalPending := false
    signalClosed := false
    ring := NewRing ring
    LastErr := none
    signalTime := now
    fileOpen := true }

/-- Go `(*Indexer).Open` (index.go lines 119-129): recreate the wake channel,
reopen the file, and reset the buffered writer onto it (`bw.Reset` discards
unflushed bytes and clears the writer's error).  `LastErr` is not touched. -/
def Indexer.Open (i : Indexer) : Indexer :=
  { i with signalPending := false, signalClosed := false, fileOpen := true,
           bw := { buf := [], file := i.bw.file, err := none } }

/-- Go `(*Indexer).Close` (index.go lines 303-306): close the wake channel;
nothing is returned.  The final drain/flush/sync/close runs asynchronously
in `Indexer.write`. -/
def Indexer.Close (i : Indexer) : Indexer :=
  { i with signalClosed := true }

/-- Go `(*Indexer).Add` (index.go lines 132-158) at time `now`: short-circuit
on the sticky fault; send a coalesced wake when occupancy exceeds `sigNum`
or more than 30 seconds passed since the last wake (non-blocking send on
the capacity-1 channel: dropped if one is pending, and the timestamp is
updated only when the send succeeds); then reserve, populate, and commit a
ring slot, making a `Full` failure sticky. -/
def Indexer.Add (i : Indexer) (key : Int) (offset : Nat) (size : Int)
    (now : Nat) : Option Err × Indexer :=
  match i.LastErr with
  | some e => (some e, i)
  | none =>
    let i1 :=
      if i.sigNum < i.ring.Buffered ∨ indexSignalDuration < now - i.signalTime
      then
        if i.signalPending then i
        else { i with signalPending := true, signalTime := now }
      else i
    match i1.ring.Set ⟨key, offset, size⟩ with
    | .error e => (some e, { i1 with LastErr := some e })
    | .ok r => (none, { i1 with ring := r.SetAdv })

/-- Go `(*Indexer).Write` (index.go lines 163-180): short-circuit on the
sticky fault; write key, offset, size big-endian through the buffered
writer, aborting at the first failing field write and making its error
sticky. -/
def Indexer.Write (i : Indexer) (key : Int) (offset : Nat) (size : Int) :
    Option Err × Indexer :=
  match i.LastErr with
  | some e => (some e, i)
  | none =>
    match i.bw.writeBytes (putInt64 key) with
    | (some e, bw1) => (some e, { i with bw := bw1, LastErr := some e })
    | (none, bw1) =>
      match bw1.writeBytes (putUint32 offset) with
      | (some e, bw2) => (some e, { i with bw := bw2, LastErr := some e })
      | (none, bw2) =>
        match bw2.writeBytes (putInt32 size) with
        | (some e, bw3) => (some e, { i with bw := bw3, LastErr := some e })
        | (none, bw3) => (none, { i with bw := bw3 })

/-- Go `(*Indexer).Flush` (index.go lines 183-197): short-circuit on the
sticky fault; flush the buffered writer, making a failure sticky. -/
def Indexer.Flush (i : Indexer) : Option Err × Indexer :=
  match i.LastErr with
  | some e => (some e, i)
  | none =>
    match i.bw.flushBuf with
    | (some e, bw1) => (some e, { i with bw := bw1, LastErr := some e })
    | (none, bw1) => (none, { i with bw := bw1 })

/-! ## The background drain loop -/

theorem Indexer.Write_ring (i : Indexer) (k : Int) (o : Nat) (s : Int) :
    ((i.Write k o s).2).ring = i.ring := by
  unfold Indexer.Write BufWriter.writeBytes
  cases i.LastErr <;> cases h2 : i.bw.err <;> simp [h2]

theorem Ring.Get_ok_pos {r : Ring} {ix : Index} (h : r.Get = .ok ix) :
    0 < r.Buffered := by
  unfold Ring.Get at h
  split at h
  · exact absurd h (by simp)
  · omega

/-- Go `(*Indexer).merge` (index.go lines 200-214): repeatedly reserve a read
slot; on `Empty` stop with no error; otherwise `Write` the record (break
on failure, returning it) and commit the read. -/
def Indexer.merge (i : Indexer) : Option Err × Indexer :=
  match hg : i.ring.Get with
  | .error _ => (none, i)
  | .ok index =>
    let p := i.Write index.Key index.Offset index.Size
    match p.1 with
    | some e => (some e, p.2)
    | none => Indexer.merge { p.2 with ring := (p.2).ring.GetAdv }
termination_by i.ring.Buffered
decreasing_by
  have h1 := Ring.Get_ok_pos hg
  have h2 := Indexer.Write_ring i index.Key index.Offset index.Size
  simp only [Ring.Buffered, Ring.GetAdv, h2] at *
  omega

/-- Observable steps of the background loop, for stating in which order the
loop drains, flushes, syncs, and closes the file. -/
inductive Action where
  | drain
  | flush
  | sync
  | closeFile
deriving DecidableEq

/-- The fall-through tail of `(*Indexer).write` (index.go lines 232-239),
reached after the loop breaks for any reason: one more `merge` and `Flush`
with their errors discarded, then `f.Sync()` and `f.Close()` whose errors
are only logged.  On the byte-list file model sync and close cannot fail;
close marks the handle closed. -/
def Indexer.finalSeq (i : Indexer) : Indexer × List Action :=
  let i1 := (i.merge).2
  let i2 := (i1.Flush).2
  ({ i2 with fileOpen := false },
   [Action.drain, Action.flush, Action.sync, Action.closeFile])

/-- Go `(*Indexer).write` (index.go lines 217-241), the background goroutine,
applied to the list of values it will receive from the wake channel before
the channel is closed (a receive on the closed channel then yields `0`,
which is `≠ indexReady` and breaks the loop).  Each loop pass that receives
`indexReady` performs a drain (`merge`) and, if that succeeds, a flush;
an error in either breaks the loop.  Every exit path falls through to
`finalSeq`. -/
def Indexer.write (i : Indexer) (sigs : List Nat) : Indexer × List Action :=
  match sigs with
  | [] => i.finalSeq
  | s :: rest =>
    if s = indexReady then
      match i.merge with
      | (some _, i1) =>
        let p := i1.finalSeq
        (p.1, Action.drain :: p.2)
      | (none, i1) =>
        match i1.Flush with
        | (some _, i2) =>
          let p := i2.finalSeq
          (p.1, Action.drain :: Action.flush :: p.2)
        | (none, i2) =>
          let p := i2.write rest
          (p.1, Action.drain :: Action.flush :: p.2)
    else i.finalSeq

/-! ## Scan and recovery -/

/-- The loop of `(*Indexer).Scan` (index.go lines 244-282) over the bytes of
the file, returning the records handed to the callback, in order, and the
terminal status: `none` for the clean stop (fewer than `indexSize` bytes
remain at the lookahead, i.e. `Peek` returns `io.EOF`, which line 278 maps
to a nil error), `some .indexSize` for the validation fault when the decoded
size is out of bounds (the callback is not invoked for that record), or the
callback's own error.  A record is consumed (`Discard`) before the callback
runs. -/
def scanList (data : List Nat) (fn : Index → Option Err) :
    List Index × Option Err :=
  if data.length < indexSize then ([], none)
  else
    let ix := Index.parse (data.take indexSize)
    if NeedleMaxSize < ix.Size ∨ ix.Size < 1 then ([], some .indexSize)
    else
      match fn ix with
      | some e => ([ix], some e)
      | none =>
        let p := scanList (data.drop indexSize) fn
        (ix :: p.1, p.2)
termination_by data.length
decreasing_by
  have h16 : indexSize = 16 := rfl
  simp only [List.length_drop, h16] at *
  omega

/-- Go `(*Indexer).Scan` as an operation on the instance: the loop touches no
field of the indexer (in particular not `LastErr`), so the instance is
returned unchanged alongside the scan outcome. -/
def Indexer.Scan (i : Indexer) (r : List Nat) (fn : Index → Option Err) :
    (List Index × Option Err) × Indexer :=
  (scanList r fn, i)

/-- Go `(*Indexer).Recovery` (index.go lines 286-300): scans the instance's own
file, counting `indexSize` bytes per callback invocation, then seeks the
file's write cursor to that accumulated offset; the returned `Nat` is that
seek target.  Faithful to the source, the scan's result is discarded: at
line 288 the call `i.Scan(...)` appears as the init statement of the `if`
without assigning `err`, so `err` is still `nil` when tested, the error
branch is never taken, and `Recovery` returns the `Seek` error or `nil`
(always `none` on the byte-list model). -/
def Indexer.Recovery (i : Indexer) (fn : Index → Option Err) :
    (Nat × Option Err) × Indexer :=
  ((indexSize * (scanList i.bw.file fn).1.length, none), i)

/-! ## Scan lemmas -/

theorem parse_encode_valid {ix : Index} (h : validIndex ix) :
    Index.parse ix.encode = ix := by
  obtain ⟨h1, h2, h3, h4, h5⟩ := h
  have h5' : ix.Size < 2147483648 := by
    have hN : NeedleMaxSize = 1048576 := rfl
    omega
  exact parse_encode ix.Key ix.Offset ix.Size h1 h2 h3 (by omega) h5'

theorem scanList_short (data : List Nat) (fn : Index → Option Err)
    (h : data.length < indexSize) : scanList data fn = ([], none) := by
  rw [scanList.eq_def, if_pos h]

theorem scanList_bad {data : List Nat} (fn : Index → Option Err)
    (hlen : ¬ data.length < indexSize)
    (hbad : NeedleMaxSize < (Index.parse (data.take indexSize)).Size ∨
      (Index.parse (data.take indexSize)).Size < 1) :
    scanList data fn = ([], some Err.indexSize) := by
  rw [scanList.eq_def, if_neg hlen]
  exact if_pos hbad

theorem encode_length_idx (ix : Index) : ix.encode.length = indexSize :=
  encode_length ix

theorem scanList_cons (ix : Index) (rest : List Nat)
    (fn : Index → Option Err) (hv : validIndex ix) (hfn : fn ix = none) :
    scanList (ix.encode ++ rest) fn =
      (ix :: (scanList rest fn).1, (scanList rest fn).2) := by
  have hparse : Index.parse ((ix.encode ++ rest).take indexSize) = ix := by
    rw [List.take_left' (encode_length_idx ix)]
    exact parse_encode_valid hv
  have hlen : ¬ (ix.encode ++ rest).length < indexSize := by
    have := encode_length ix
    have h16 : indexSize = 16 := rfl
    simp only [List.length_append, h16]
    omega
  have hdrop : (ix.encode ++ rest).drop indexSize = rest :=
    List.drop_left' (encode_length_idx ix)
  rw [scanList.eq_def, if_neg hlen]
  simp only [hparse, hdrop, hfn]
  obtain ⟨-, -, -, h4, h5⟩ := hv
  have hN : NeedleMaxSize = 1048576 := rfl
  rw [if_neg (by omega)]

theorem scanList_append (recs : List Index) (rest : List Nat)
    (fn : Index → Option Err)
    (hv : ∀ ix ∈ recs, validIndex ix) (hfn : ∀ ix, fn ix = none) :
    scanList (encodeAll recs ++ rest) fn =
      (recs ++ (scanList rest fn).1, (scanList rest fn).2) := by
  induction recs with
  | nil => simp [encodeAll]
  | cons ix tl ih =>
    have hv1 : validIndex ix := hv ix (List.mem_cons_self ix tl)
    have hvtl : ∀ j ∈ tl, validIndex j := fun j hj => hv j (List.mem_cons_of_mem ix hj)
    rw [show encodeAll (ix :: tl) = ix.encode ++ encodeAll tl from rfl,
      List.append_assoc, scanList_cons ix _ fn hv1 (hfn ix), ih hvtl]
    simp

/-- C3: a file of complete valid records followed by a short tail — scan
stops cleanly at the tail, delivering exactly the full records, and
`Recovery` seeks the file's write cursor to exactly `indexSize` times the
record count (given a callback that never faults). -/
theorem scan_tail_tolerance (recs : List Index) (tail : List Nat)
    (c now : Nat) (fn : Index → Option Err)
    (hv : ∀ ix ∈ recs, validIndex ix) (ht : tail.length < indexSize)
    (hfn : ∀ ix, fn ix = none) :
    (NewIndexer (encodeAll recs ++ tail) c now).Scan (encodeAll recs ++ tail) fn
        = ((recs, none), NewIndexer (encodeAll recs ++ tail) c now) ∧
      (NewIndexer (encodeAll recs ++ tail) c now).Recovery fn
        = ((indexSize * recs.length, none),
            NewIndexer (encodeAll recs ++ tail) c now) := by
  have hs : scanList (encodeAll recs ++ tail) fn = (recs, none) := by
    rw [scanList_append recs tail fn hv hfn, scanList_short tail fn ht]
    simp
  constructor
  · rw [Indexer.Scan, hs]
  · rw [Indexer.Recovery]
    have hfile : (NewIndexer (encodeAll recs ++ tail) c now).bw.file
        = encodeAll recs ++ tail := rfl
    rw [hfile, hs]

/-- C3 witness: two valid records followed by a 3-byte fragment; recovery
seeks to `indexSize * 2 = 32`. -/
theorem scan_tail_tolerance_witness :
    (∀ ix ∈ ([⟨1, 0, 100⟩, ⟨2, 128, 200⟩] : List Index), validIndex ix) ∧
      ([7, 7, 7] : List Nat).length < indexSize ∧
      ((NewIndexer (encodeAll [⟨1, 0, 100⟩, ⟨2, 128, 200⟩] ++ [7, 7, 7]) 4 0).Recovery
          (fun _ => none)).1 = (32, none) := by
  refine ⟨by decide, by decide, ?_⟩
  have h := (scan_tail_tolerance [⟨1, 0, 100⟩, ⟨2, 128, 200⟩] [7, 7, 7] 4 0
    (fun _ => none) (by decide) (by decide) (fun _ => rfl)).2
  rw [h]
  rfl

/-- C4: when the next decoded candidate record during a scan has size `0`,
negative, or above `NeedleMaxSize`, the scan stops with the validation
fault, the callback is not invoked for that record, and the instance —
in particular its sticky fault field — is unchanged. -/
theorem scan_boundary_rejection (i : Indexer) (recs : List Index)
    (rest : List Nat) (fn : Index → Option Err)
    (hv : ∀ ix ∈ recs, validIndex ix) (hfn : ∀ ix, fn ix = none)
    (hlen : indexSize ≤ rest.length)
    (hbad : (Index.parse (rest.take indexSize)).Size < 1 ∨
      NeedleMaxSize < (Index.parse (rest.take indexSize)).Size) :
    i.Scan (encodeAll recs ++ rest) fn = ((recs, some Err.indexSize), i) := by
  have hs : scanList rest fn = ([], some Err.indexSize) :=
    scanList_bad fn (by omega) hbad.symm
  rw [Indexer.Scan, scanList_append recs rest fn hv hfn, hs]
  simp

/-- C4 witness: a single all-zero 16-byte record (decoded size 0) is
rejected without invoking the callback, leaving the instance unchanged. -/
theorem scan_boundary_rejection_witness :
    indexSize ≤ (List.replicate 16 0 : List Nat).length ∧
      ((Index.parse ((List.replicate 16 0 : List Nat).take indexSize)).Size < 1 ∨
        NeedleMaxSize < (Index.parse ((List.replicate 16 0 : List Nat).take indexSize)).Size) ∧
      (NewIndexer [] 4 0).Scan (encodeAll [] ++ List.replicate 16 0) (fun _ => none)
        = (([], some Err.indexSize), NewIndexer [] 4 0) := by
  refine ⟨by decide, by decide, ?_⟩
  exact scan_boundary_rejection (NewIndexer [] 4 0) [] (List.replicate 16 0)
    (fun _ => none) (by simp) (fun _ => rfl) (by decide) (by decide)

/-- C1: the validation fault is NOT propagated from `Recovery`.  On a file
whose single record decodes to size 0, the scan stops with `ErrIndexSize`,
but `Recovery` — which discards the result of `i.Scan` at index.go line 288
— still returns no error (it seeks to offset 0 and reports success). -/
theorem recovery_swallows_validation_fault :
    ((NewIndexer (List.replicate 16 0) 4 0).Scan (List.replicate 16 0)
        (fun _ => none)).1 = ([], some Err.indexSize) ∧
      (NewIndexer (List.replicate 16 0) 4 0).Recovery (fun _ => none)
        = ((0, none), NewIndexer (List.replicate 16 0) 4 0) := by
  have hs : scanList (List.replicate 16 0) (fun _ => none)
      = ([], some Err.indexSize) :=
    scanList_bad _ (by decide) (by decide)
  constructor
  · rw [Indexer.Scan, hs]
  · rw [Indexer.Recovery]
    have hfile : (NewIndexer (List.replicate 16 0) 4 0).bw.file
        = List.replicate 16 0 := rfl
    rw [hfile, hs]
    rfl

/-! ## Sticky-fault lemmas -/

theorem Indexer.Add_stuck (i : Indexer) (e : Err) (h : i.LastErr = some e)
    (k : Int) (o : Nat) (s : Int) (now : Nat) :
    i.Add k o s now = (some e, i) := by
  unfold Indexer.Add
  rw [h]

theorem Indexer.Write_stuck (i : Indexer) (e : Err) (h : i.LastErr = some e)
    (k : Int) (o : Nat) (s : Int) : i.Write k o s = (some e, i) := by
  unfold Indexer.Write
  rw [h]

theorem Indexer.Flush_stuck (i : Indexer) (e : Err) (h : i.LastErr = some e) :
    i.Flush = (some e, i) := by
  unfold Indexer.Flush
  rw [h]

theorem Indexer.merge_stuck (i : Indexer) (e : Err) (h : i.LastErr = some e) :
    (i.merge).2 = i := by
  rw [Indexer.merge.eq_def]
  rcases hg : i.ring.Get with e2 | ix
  · rfl
  · simp only [Indexer.Write_stuck i e h]

theorem Indexer.finalSeq_stuck (i : Indexer) (e : Err) (h : i.LastErr = some e) :
    i.finalSeq = ({ i with fileOpen := false },
      [Action.drain, Action.flush, Action.sync, Action.closeFile]) := by
  unfold Indexer.finalSeq
  rw [Indexer.merge_stuck i e h]
  simp [Indexer.Flush_stuck i e h]

theorem Indexer.write_nil_stuck (i : Indexer) (e : Err)
    (h : i.LastErr = some e) :
    i.write [] = ({ i with fileOpen := false },
      [Action.drain, Action.flush, Action.sync, Action.closeFile]) := by
  unfold Indexer.write
  exact Indexer.finalSeq_stuck i e h

/-- C5: sticky-fault semantics.  A `Full` failure of the ring reservation in
`Add`, or any failing I/O step of `Write`/`Flush`, sets the sticky fault to
that error; and once the sticky fault holds some error, every subsequent
`Add`, `Write`, and `Flush` returns exactly that error with the instance
completely unchanged — no buffer mutation, no I/O. -/
theorem sticky_fault (i : Indexer) :
    (∀ k o s now, i.LastErr = none → i.ring.Buffered = i.ring.capacity →
      (i.Add k o s now).1 = some Err.full ∧
        (i.Add k o s now).2.LastErr = some Err.full) ∧
      (∀ k o s e, i.LastErr = none → (i.Write k o s).1 = some e →
        (i.Write k o s).2.LastErr = some e) ∧
      (∀ e, i.LastErr = none → (i.Flush).1 = some e →
        (i.Flush).2.LastErr = some e) ∧
      (∀ e, i.LastErr = some e →
        (∀ k o s now, i.Add k o s now = (some e, i)) ∧
          (∀ k o s, i.Write k o s = (some e, i)) ∧ i.Flush = (some e, i)) := by
  refine ⟨?_, ?_, ?_, ?_⟩
  · intro k o s now h0 hfull
    simp only [Indexer.Add, h0]
    split_ifs <;> simp [Ring.Set, hfull]
  · intro k o s e h0 hw
    simp only [Indexer.Write, h0, BufWriter.writeBytes] at hw ⊢
    cases h2 : i.bw.err with
    | none => simp [h2] at hw
    | some e2 => simp_all
  · intro e h0 hw
    simp only [Indexer.Flush, h0, BufWriter.flushBuf] at hw ⊢
    cases h2 : i.bw.err with
    | none => simp [h2] at hw
    | some e2 => simp_all
  · intro e h
    exact ⟨fun k o s now => Indexer.Add_stuck i e h k o s now,
      fun k o s => Indexer.Write_stuck i e h k o s, Indexer.Flush_stuck i e h⟩

/-- C5 witness: an instance with the sticky fault set to an I/O fault
rejects `Add`, `Write`, and `Flush` with that same fault, unchanged. -/
theorem sticky_fault_witness :
    ({ NewIndexer [] 4 0 with LastErr := some Err.ioFault } : Indexer).LastErr
        = some Err.ioFault ∧
      ({ NewIndexer [] 4 0 with LastErr := some Err.ioFault } : Indexer).Add 1 2 3 0
        = (some Err.ioFault, { NewIndexer [] 4 0 with LastErr := some Err.ioFault }) ∧
      ({ NewIndexer [] 4 0 with LastErr := some Err.ioFault } : Indexer).Write 1 2 3
        = (some Err.ioFault, { NewIndexer [] 4 0 with LastErr := some Err.ioFault }) ∧
      ({ NewIndexer [] 4 0 with LastErr := some Err.ioFault } : Indexer).Flush
        = (some Err.ioFault, { NewIndexer [] 4 0 with LastErr := some Err.ioFault }) := by
  have h := (sticky_fault { NewIndexer [] 4 0 with LastErr := some Err.ioFault }).2.2.2
    Err.ioFault rfl
  exact ⟨rfl, h.1 1 2 3 0, h.2.1 1 2 3, h.2.2⟩

/-- C10: `Open` after `Close` (and the background teardown) does not clear
the sticky fault: it survives reopen, and `Add`, `Write`, and `Flush` on the
reopened instance still fail immediately with the old fault, unchanged. -/
theorem reopen_keeps_sticky_fault (i : Indexer) (e : Err)
    (h : i.LastErr = some e) :
    ((i.Close.write []).1.Open).LastErr = some e ∧
      ∀ k o s now,
        ((i.Close.write []).1.Open).Add k o s now
            = (some e, (i.Close.write []).1.Open) ∧
          ((i.Close.write []).1.Open).Write k o s
            = (some e, (i.Close.write []).1.Open) ∧
          ((i.Close.write []).1.Open).Flush
            = (some e, (i.Close.write []).1.Open) := by
  have hc : i.Close.LastErr = some e := h
  have hdown := Indexer.write_nil_stuck i.Close e hc
  have hOpen : ((i.Close.write []).1.Open).LastErr = some e := by
    rw [hdown]
    exact h
  refine ⟨hOpen, fun k o s now => ⟨?_, ?_, ?_⟩⟩
  · exact Indexer.Add_stuck _ e hOpen k o s now
  · exact Indexer.Write_stuck _ e hOpen k o s
  · exact Indexer.Flush_stuck _ e hOpen

/-- C10 witness: a concrete faulted instance keeps its fault across
`Close`/`Open` and still rejects `Add` afterwards. -/
theorem reopen_keeps_sticky_fault_witness :
    ({ NewIndexer [] 4 0 with LastErr := some Err.full } : Indexer).LastErr
        = some Err.full ∧
      ((({ NewIndexer [] 4 0 with LastErr := some Err.full } : Indexer).Close.write
          []).1.Open).LastErr = some Err.full ∧
      ((({ NewIndexer [] 4 0 with LastErr := some Err.full } : Indexer).Close.write
          []).1.Open).Add 9 9 9 9
        = (some Err.full,
            (({ NewIndexer [] 4 0 with LastErr := some Err.full } : Indexer).Close.write
              []).1.Open) := by
  have h := reopen_keeps_sticky_fault
    { NewIndexer [] 4 0 with LastErr := some Err.full } Err.full rfl
  exact ⟨rfl, h.1, (h.2 9 9 9 9).1⟩

/-! ## Wake triggering (C8) -/

/-- C8: on an `Add` with no sticky fault, writing to the wake channel is
governed exactly by the condition "occupancy strictly exceeds
`capacity / 2` (integer division, via `sigNum`) or more than 30 seconds
elapsed since the last successful wake": if the condition holds and no wake
is pending, the send succeeds (the channel, of capacity 1, now holds the
one outstanding token) and the timestamp is updated to `now`; if the
condition holds but a wake is already pending, the send is dropped and the
timestamp is not updated; if the condition fails, channel and timestamp are
untouched. -/
theorem wake_triggering (i : Indexer) (k : Int) (o : Nat) (s : Int)
    (now : Nat) (h0 : i.LastErr = none)
    (hs : i.sigNum = i.ring.capacity / 2) :
    ((i.ring.capacity / 2 < i.ring.Buffered ∨
        indexSignalDuration < now - i.signalTime) →
      i.signalPending = false →
      (i.Add k o s now).2.signalPending = true ∧
        (i.Add k o s now).2.signalTime = now) ∧
      ((i.ring.capacity / 2 < i.ring.Buffered ∨
          indexSignalDuration < now - i.signalTime) →
        i.signalPending = true →
        (i.Add k o s now).2.signalPending = true ∧
          (i.Add k o s now).2.signalTime = i.signalTime) ∧
      (¬ (i.ring.capacity / 2 < i.ring.Buffered ∨
          indexSignalDuration < now - i.signalTime) →
        (i.Add k o s now).2.signalPending = i.signalPending ∧
          (i.Add k o s now).2.signalTime = i.signalTime) := by
  simp only [Indexer.Add, h0, hs]
  refine ⟨?_, ?_, ?_⟩
  · intro hc hp
    rw [if_pos hc, hp]
    simp only [Bool.false_eq_true, if_false]
    rcases hset : (({ i with signalPending := true, signalTime := now } :
        Indexer).ring.Set ⟨k, o, s⟩) with e | r <;> simp [hset, Ring.SetAdv]
  · intro hc hp
    rw [if_pos hc, hp]
    simp only [if_true]
    rcases hset : (i.ring.Set ⟨k, o, s⟩) with e | r <;>
      simp [hset, Ring.SetAdv, hp]
  · intro hc
    rw [if_neg hc]
    rcases hset : (i.ring.Set ⟨k, o, s⟩) with e | r <;> simp [hset, Ring.SetAdv]

/-- C8 witness: capacity 4, occupancy 2, no pending wake, 10 seconds since
the last wake — occupancy does not strictly exceed `4 / 2 = 2` and the time
bound is not exceeded, so no wake fires: the channel is still empty after
the `Add`. -/
theorem wake_triggering_witness :
    ({ NewIndexer [] 4 0 with
        ring := { capacity := 4, slots := List.replicate 4 ⟨0, 0, 0⟩,
                  wpos := 2, rpos := 0 } } : Indexer).signalPending = false ∧
      ¬ (({ NewIndexer [] 4 0 with
          ring := { capacity := 4, slots := List.replicate 4 ⟨0, 0, 0⟩,
                    wpos := 2, rpos := 0 } } : Indexer).ring.capacity / 2 <
            ({ NewIndexer [] 4 0 with
              ring := { capacity := 4, slots := List.replicate 4 ⟨0, 0, 0⟩,
                        wpos := 2, rpos := 0 } } : Indexer).ring.Buffered ∨
          indexSignalDuration < 10 - ({ NewIndexer [] 4 0 with
            ring := { capacity := 4, slots := List.replicate 4 ⟨0, 0, 0⟩,
                      wpos := 2, rpos := 0 } } : Indexer).signalTime) ∧
      (({ NewIndexer [] 4 0 with
          ring := { capacity := 4, slots := List.replicate 4 ⟨0, 0, 0⟩,
                    wpos := 2, rpos := 0 } } : Indexer).Add 5 6 100
          10).2.signalPending = false := by
  have h := (wake_triggering { NewIndexer [] 4 0 with
    ring := { capacity := 4, slots := List.replicate 4 ⟨0, 0, 0⟩,
              wpos := 2, rpos := 0 } } 5 6 100 10 rfl rfl).2.2 (by decide)
  exact ⟨rfl, by decide, h.1⟩

/-! ## Shutdown and termination of the background loop (C9, C2) -/

theorem Indexer.write_nil (i : Indexer) : i.write [] = i.finalSeq := rfl

theorem Indexer.write_cons (i : Indexer) (s : Nat) (rest : List Nat) :
    i.write (s :: rest) =
      if s = indexReady then
        match i.merge with
        | (some _, i1) => ((i1.finalSeq).1, Action.drain :: (i1.finalSeq).2)
        | (none, i1) =>
          match i1.Flush with
          | (some _, i2) =>
            ((i2.finalSeq).1,
              Action.drain :: Action.flush :: (i2.finalSeq).2)
          | (none, i2) =>
            ((i2.write rest).1,
              Action.drain :: Action.flush :: (i2.write rest).2)
      else i.finalSeq := rfl

theorem Indexer.finalSeq_trace (i : Indexer) :
    (i.finalSeq).2 =
      [Action.drain, Action.flush, Action.sync, Action.closeFile] := rfl

theorem Indexer.finalSeq_closed (i : Indexer) :
    (i.finalSeq).1.fileOpen = false := rfl

/-- C9: however the wake-channel value stream ends (the channel is
eventually closed, after which receives yield `0 ≠ indexReady`), the
background loop leaves its wait/drain cycle and then performs exactly one
final drain pass, a flush, a durability sync, and a file close, in that
order and nowhere earlier in the run; the loop returns nothing (errors of
the final sequence are only logged), and the file handle ends closed. -/
theorem graceful_shutdown (i : Indexer) (sigs : List Nat) :
    ∃ pre, (i.write sigs).2 =
        pre ++ [Action.drain, Action.flush, Action.sync, Action.closeFile] ∧
      Action.sync ∉ pre ∧ Action.closeFile ∉ pre ∧
      (i.write sigs).1.fileOpen = false := by
  induction sigs generalizing i with
  | nil =>
    exact ⟨[], by rw [Indexer.write_nil, Indexer.finalSeq_trace]; rfl,
      by simp, by simp, by rw [Indexer.write_nil, Indexer.finalSeq_closed]⟩
  | cons s rest ih =>
    rw [Indexer.write_cons]
    by_cases hsr : s = indexReady
    · rw [if_pos hsr]
      rcases hm : i.merge with ⟨e1, i1⟩
      cases e1 with
      | some e =>
        refine ⟨[Action.drain], ?_, by simp, by simp, ?_⟩
        · simp [Indexer.finalSeq_trace]
        · simp [Indexer.finalSeq_closed]
      | none =>
        rcases hf : i1.Flush with ⟨e2, i2⟩
        cases e2 with
        | some e =>
          refine ⟨[Action.drain, Action.flush], ?_, by simp, by simp, ?_⟩
          · simp [hf, Indexer.finalSeq_trace]
          · simp [hf, Indexer.finalSeq_closed]
        | none =>
          obtain ⟨pre, h1, h2, h3, h4⟩ := ih i2
          refine ⟨Action.drain :: Action.flush :: pre, ?_, by simp [h2],
            by simp [h3], ?_⟩
          · simp [hf, h1]
          · simp [hf, h4]
    · rw [if_neg hsr]
      exact ⟨[], by rw [Indexer.finalSeq_trace]; rfl, by simp, by simp,
        Indexer.finalSeq_closed i⟩

/-- A concrete instance whose drain pass fails at the encode step: the ring
holds one committed record and the underlying writer carries an injected
I/O fault, so the first `Write` of the drain fails. -/
def wedgeIndexer : Indexer :=
  { NewIndexer [] 1 0 with
      ring := { capacity := 1, slots := [⟨1, 2, 3⟩], wpos := 1, rpos := 0 },
      bw := { buf := [], file := [], err := some Err.ioFault } }

theorem wedgeIndexer_merge :
    wedgeIndexer.merge =
      (some Err.ioFault, { wedgeIndexer with LastErr := some Err.ioFault }) := by
  rw [Indexer.merge.eq_def]
  simp [wedgeIndexer, NewIndexer, NewRing, Ring.Get, Ring.Buffered,
    Indexer.Write, BufWriter.writeBytes]

/-- C2 counterexample: the claim says the file-close step is never
performed on the encode-failure path; but on the concrete run in which the
drain's encode step fails with an I/O fault, the loop still falls through
to the final sequence and the file IS closed. -/
theorem drain_failure_still_closes :
    (wedgeIndexer.merge).1 = some Err.ioFault ∧
      Action.closeFile ∈ (wedgeIndexer.write [indexReady]).2 ∧
      (wedgeIndexer.write [indexReady]).1.fileOpen = false := by
  refine ⟨by rw [wedgeIndexer_merge], ?_, ?_⟩
  · rw [Indexer.write_cons, if_pos rfl, wedgeIndexer_merge]
    simp [Indexer.finalSeq_trace]
  · rw [Indexer.write_cons, if_pos rfl, wedgeIndexer_merge]
    exact Indexer.finalSeq_closed _

/-- C2 amended: when the drain pass of a received wake fails (encode
failure inside `merge`), the loop breaks out of the wait/drain cycle and
still runs the same final sequence as a graceful shutdown — one more drain
attempt, a flush, a sync, and a file close — so the file is closed on the
encode-failure path too; the wedged state is the sticky fault, not an open
file. -/
theorem encode_failure_closes_file (i : Indexer) (e : Err) (rest : List Nat)
    (hm : (i.merge).1 = some e) :
    (i.write (indexReady :: rest)).2 =
        [Action.drain, Action.drain, Action.flush, Action.sync,
          Action.closeFile] ∧
      (i.write (indexReady :: rest)).1.fileOpen = false := by
  rw [Indexer.write_cons, if_pos rfl]
  rcases hmm : i.merge with ⟨e1, i1⟩
  rw [hmm] at hm
  simp only at hm
  subst hm
  constructor
  · simp [Indexer.finalSeq_trace]
  · simp [Indexer.finalSeq_closed]

/-- C2 amended witness: the concrete wedged run, with the hypothesis (the
drain pass fails) discharged by evaluation. -/
theorem encode_failure_closes_file_witness :
    (wedgeIndexer.merge).1 = some Err.ioFault ∧
      (wedgeIndexer.write (indexReady :: [])).2 =
        [Action.drain, Action.drain, Action.flush, Action.sync,
          Action.closeFile] := by
  refine ⟨by rw [wedgeIndexer_merge], ?_⟩
  exact (encode_failure_closes_file wedgeIndexer Err.ioFault []
    (by rw [wedgeIndexer_merge])).1

/-! ## Ring lemmas for the insert/drain pipeline (C7) -/

theorem getD_set_of_ne {α : Type} (l : List α) (i j : Nat) (a d : α)
    (h : i ≠ j) : (l.set i a).getD j d = l.getD j d := by
  simp [List.getD_eq_getElem?_getD, List.getElem?_set_ne h]

theorem getD_set_self_of_lt {α : Type} (l : List α) (i : Nat) (a d : α)
    (h : i < l.length) : (l.set i a).getD i d = a := by
  simp [List.getD_eq_getElem?_getD, List.getElem?_set_self, h]

theorem mod_ne_of_between {a b C : Nat} (hab : a < b) (hC : b - a < C) :
    a % C ≠ b % C := by
  intro h
  have hd : C ∣ b - a := (Nat.modEq_iff_dvd' (Nat.le_of_lt hab)).mp h
  have := Nat.le_of_dvd (by omega) hd
  omega

/-- Reserving, populating, and committing a write slot on a non-full
well-formed ring appends the record to the pending sequence. -/
theorem Ring.push_pending (r : Ring) (ix : Index) (hInv : r.Inv)
    (hlt : r.Buffered < r.capacity) :
    ∃ r2, r.Set ix = .ok r2 ∧ (r2.SetAdv).Inv ∧
      (r2.SetAdv).pending = r.pending ++ [ix] ∧
      (r2.SetAdv).Buffered = r.Buffered + 1 ∧
      (r2.SetAdv).capacity = r.capacity := by
  obtain ⟨h1, h2, h3⟩ := hInv
  unfold Ring.Buffered at hlt ⊢
  refine ⟨{ r with slots := r.slots.set (r.wpos % r.capacity) ix }, ?_, ?_,
    ?_, ?_, rfl⟩
  · unfold Ring.Set Ring.Buffered
    rw [if_neg (by omega)]
  · simp only [Ring.Inv, Ring.SetAdv, Ring.Buffered, List.length_set]
    exact ⟨by omega, by omega, h3⟩
  · simp only [Ring.pending, Ring.SetAdv, Ring.Buffered]
    have hn : r.wpos + 1 - r.rpos = (r.wpos - r.rpos) + 1 := by omega
    rw [hn, List.range_succ, List.map_append]
    congr 1
    · apply List.map_congr_left
      intro j hj
      rw [List.mem_range] at hj
      apply getD_set_of_ne
      intro hh
      exact mod_ne_of_between (a := r.rpos + j) (b := r.wpos)
        (by omega) (by omega) hh.symm
    · simp only [List.map_cons, List.map_nil]
      have harg : (r.rpos + (r.wpos - r.rpos)) % r.capacity
          = r.wpos % r.capacity := by
        congr 1
        omega
      rw [harg, getD_set_self_of_lt]
      rw [h3]
      exact Nat.mod_lt _ (by omega)
  · simp only [Ring.SetAdv, Ring.Buffered]
    omega

/-- Reading and committing the slot at the read cursor of a nonempty
well-formed ring pops the head of the pending sequence. -/
theorem Ring.pop_pending (r : Ring) (hpos : 0 < r.Buffered) (hInv : r.Inv) :
    r.Get = .ok (r.slots.getD (r.rpos % r.capacity) ⟨0, 0, 0⟩) ∧
      (r.GetAdv).Inv ∧
      r.pending =
        r.slots.getD (r.rpos % r.capacity) ⟨0, 0, 0⟩ :: (r.GetAdv).pending ∧
      (r.GetAdv).Buffered = r.Buffered - 1 ∧
      (r.GetAdv).capacity = r.capacity ∧ (r.GetAdv).wpos = r.wpos := by
  obtain ⟨h1, h2, h3⟩ := hInv
  unfold Ring.Buffered at hpos
  refine ⟨?_, ?_, ?_, ?_, rfl, rfl⟩
  · unfold Ring.Get Ring.Buffered
    rw [if_neg (by omega)]
  · simp only [Ring.Inv, Ring.GetAdv, Ring.Buffered]
    exact ⟨by omega, by omega, h3⟩
  · simp only [Ring.pending, Ring.GetAdv, Ring.Buffered]
    have hn : r.wpos - r.rpos = (r.wpos - (r.rpos + 1)) + 1 := by omega
    rw [hn, List.range_succ_eq_map]
    simp only [List.map_cons, List.map_map, Nat.add_zero]
    congr 1
    apply List.map_congr_left
    intro j hj
    simp only [Function.comp_apply]
    have harg : r.rpos + Nat.succ j = r.rpos + 1 + j := by omega
    rw [harg]
  · simp only [Ring.GetAdv, Ring.Buffered]
    omega

/-! ## The insert/drain/flush pipeline (C7) -/

theorem Indexer.Write_ok (i : Indexer) (k : Int) (o : Nat) (s : Int)
    (h0 : i.LastErr = none) (herr : i.bw.err = none) :
    i.Write k o s = (none,
      { i with bw :=
          { i.bw with buf := i.bw.buf ++ Index.encode ⟨k, o, s⟩ } }) := by
  unfold Indexer.Write BufWriter.writeBytes
  rw [h0]
  simp [herr, Index.encode, List.append_assoc]

theorem Indexer.Write_ok_ix (i : Indexer) (ix : Index)
    (h0 : i.LastErr = none) (herr : i.bw.err = none) :
    i.Write ix.Key ix.Offset ix.Size = (none,
      { i with bw := { i.bw with buf := i.bw.buf ++ ix.encode } }) :=
  Indexer.Write_ok i ix.Key ix.Offset ix.Size h0 herr

theorem Indexer.Flush_ok (i : Indexer) (h0 : i.LastErr = none)
    (herr : i.bw.err = none) :
    i.Flush = (none,
      { i with bw :=
          { i.bw with buf := [], file := i.bw.file ++ i.bw.buf } }) := by
  unfold Indexer.Flush BufWriter.flushBuf
  rw [h0]
  simp [herr]

/-- A successful `Add` on a non-full ring commits exactly the given record,
touching neither the writer, the sticky fault, nor the ring's pending
prefix. -/
theorem Indexer.Add_ok (i : Indexer) (ix : Index) (now : Nat)
    (h0 : i.LastErr = none) (hInv : i.ring.Inv)
    (hlt : i.ring.Buffered < i.ring.capacity) :
    ∃ i2, i.Add ix.Key ix.Offset ix.Size now = (none, i2) ∧
      i2.LastErr = none ∧ i2.bw = i.bw ∧ i2.ring.Inv ∧
      i2.ring.pending = i.ring.pending ++ [ix] ∧
      i2.ring.Buffered = i.ring.Buffered + 1 ∧
      i2.ring.capacity = i.ring.capacity := by
  obtain ⟨r2, hset, hInv2, hpend, hbuf, hcap⟩ :=
    Ring.push_pending i.ring ix hInv hlt
  simp only [Indexer.Add, h0]
  rw [show (⟨ix.Key, ix.Offset, ix.Size⟩ : Index) = ix from rfl]
  split_ifs with hc hp
  · rw [hset]
    exact ⟨_, rfl, h0, rfl, hInv2, hpend, hbuf, hcap⟩
  · rw [show ({ i with signalPending := true, signalTime := now } :
        Indexer).ring = i.ring from rfl, hset]
    exact ⟨_, rfl, rfl, rfl, hInv2, hpend, hbuf, hcap⟩
  · rw [hset]
    exact ⟨_, rfl, h0, rfl, hInv2, hpend, hbuf, hcap⟩

/-- A sequence of `Insert` calls, stopping at the first failure: the
formalisation of "for every sequence of successful Insert calls" feeding
`(*Indexer).Add` one record at a time. -/
def Indexer.insertAll (i : Indexer) (recs : List Index) (now : Nat) :
    Option Err × Indexer :=
  match recs with
  | [] => (none, i)
  | ix :: rest =>
    match i.Add ix.Key ix.Offset ix.Size now with
    | (some e, i1) => (some e, i1)
    | (none, i1) => i1.insertAll rest now

theorem Indexer.insertAll_cons (i : Indexer) (ix : Index) (tl : List Index)
    (now : Nat) :
    i.insertAll (ix :: tl) now =
      match i.Add ix.Key ix.Offset ix.Size now with
      | (some e, i1) => (some e, i1)
      | (none, i1) => i1.insertAll tl now := rfl

/-- Inserting a record list that fits in the remaining capacity succeeds
and appends it, in order, to the ring's pending sequence. -/
theorem Indexer.insertAll_ok (recs : List Index) (i : Indexer) (now : Nat)
    (h0 : i.LastErr = none) (hInv : i.ring.Inv)
    (hlen : i.ring.Buffered + recs.length ≤ i.ring.capacity) :
    ∃ i2, i.insertAll recs now = (none, i2) ∧
      i2.LastErr = none ∧ i2.bw = i.bw ∧ i2.ring.Inv ∧
      i2.ring.pending = i.ring.pending ++ recs ∧
      i2.ring.Buffered = i.ring.Buffered + recs.length ∧
      i2.ring.capacity = i.ring.capacity := by
  induction recs generalizing i with
  | nil => exact ⟨i, rfl, h0, rfl, hInv, by simp, by simp, rfl⟩
  | cons ix tl ih =>
    have hlen1 : i.ring.Buffered < i.ring.capacity := by
      simp only [List.length_cons] at hlen
      omega
    obtain ⟨i1, hAdd, h1, hbw1, hInv1, hpend1, hbuf1, hcap1⟩ :=
      Indexer.Add_ok i ix now h0 hInv hlen1
    rw [Indexer.insertAll_cons]
    rw [hAdd]
    obtain ⟨i2, hrec, h2, hbw2, hInv2, hpend2, hbuf2, hcap2⟩ :=
      ih i1 h1 hInv1 (by
        simp only [List.length_cons] at hlen
        omega)
    refine ⟨i2, hrec, h2, hbw2.trans hbw1, hInv2, ?_, ?_, hcap2.trans hcap1⟩
    · rw [hpend2, hpend1, List.append_assoc]
      rfl
    · rw [hbuf2, hbuf1]
      simp only [List.length_cons]
      omega

/-- A full drain pass (`merge`) of a clean instance encodes exactly the
ring's pending records, in order, into the write buffer, and empties the
ring. -/
theorem Indexer.merge_drains :
    ∀ n (i : Indexer), i.ring.Buffered = n → i.LastErr = none →
      i.bw.err = none → i.ring.Inv →
      i.merge = (none,
        { i with
            bw := { i.bw with buf := i.bw.buf ++ encodeAll i.ring.pending },
            ring := { i.ring with rpos := i.ring.wpos } }) := by
  intro n
  induction n using Nat.strong_induction_on with
  | _ n ih =>
    intro i hn h0 herr hInv
    rw [Indexer.merge.eq_def]
    rcases hget : i.ring.Get with e | ix
    · have hpos : i.ring.Buffered = 0 := by
        unfold Ring.Get at hget
        by_contra hh
        rw [if_neg hh] at hget
        cases hget
      have hrp : i.ring.rpos = i.ring.wpos := by
        obtain ⟨a, b, c⟩ := hInv
        unfold Ring.Buffered at hpos
        omega
      have hpend : i.ring.pending = [] := by
        unfold Ring.pending
        rw [hpos]
        simp
      rw [hpend]
      simp only [encodeAll, List.append_nil]
      obtain ⟨ibw, isn, isp, isc, ⟨cap, sl, w, rp⟩, ile, ist, ifo⟩ := i
      change rp = w at hrp
      subst hrp
      rfl
    · have hpos : 0 < i.ring.Buffered := Ring.Get_ok_pos hget
      obtain ⟨hget2, hInvAdv, hpend, hbufAdv, hcapAdv, hwposAdv⟩ :=
        Ring.pop_pending i.ring hpos hInv
      rw [hget] at hget2
      injection hget2 with hix
      have hW := Indexer.Write_ok_ix i ix h0 herr
      simp only [hW]
      have hih := ih (n - 1) (by omega)
        { i with
            bw := { i.bw with buf := i.bw.buf ++ ix.encode },
            ring := i.ring.GetAdv }
        (by simp only; omega) h0 herr hInvAdv
      rw [hih]
      simp only
      rw [hpend, ← hix]
      simp only [encodeAll, List.append_assoc]
      rfl

/-- C7: order preservation — starting from a fresh instance on an empty
file, inserting any sequence of valid records that fits the ring (so every
`Insert` succeeds), then a full drain (`merge`), a `Flush`, and a `Scan` of
the resulting file delivers to the scan callback exactly the inserted
sequence, in submission order. -/
theorem order_preservation (c now : Nat) (recs : List Index)
    (fn : Index → Option Err)
    (hlen : recs.length ≤ c) (hv : ∀ ix ∈ recs, validIndex ix)
    (hfn : ∀ ix, fn ix = none) :
    ∃ i1 i2 i3,
      (NewIndexer [] c now).insertAll recs now = (none, i1) ∧
        i1.merge = (none, i2) ∧
        i2.Flush = (none, i3) ∧
        i3.bw.file = encodeAll recs ∧
        i3.Scan i3.bw.file fn = ((recs, none), i3) := by
  have hInv0 : (NewIndexer [] c now).ring.Inv := by
    refine ⟨Nat.le_refl 0, ?_, ?_⟩ <;> simp [NewIndexer, NewRing]
  have hpend0 : (NewIndexer [] c now).ring.pending = [] := by
    simp [NewIndexer, NewRing, Ring.pending, Ring.Buffered]
  obtain ⟨i1, hins, h1, hbw1, hInv1, hpend1, hbuf1, hcap1⟩ :=
    Indexer.insertAll_ok recs (NewIndexer [] c now) now rfl hInv0
      (by simpa [NewIndexer, NewRing, Ring.Buffered] using hlen)
  have hpend1' : i1.ring.pending = recs := by
    rw [hpend1, hpend0]
    rfl
  have herr1 : i1.bw.err = none := by
    rw [hbw1]
    rfl
  have hmerge := Indexer.merge_drains i1.ring.Buffered i1 rfl h1 herr1 hInv1
  rw [hbw1, hpend1'] at hmerge
  simp only [List.nil_append] at hmerge
  have hflush := Indexer.Flush_ok
    ({ i1 with
        bw := { buf := encodeAll recs, file := [], err := none },
        ring := { i1.ring with rpos := i1.ring.wpos } } : Indexer) h1 rfl
  simp only [List.nil_append] at hflush
  have hscan : scanList (encodeAll recs) fn = (recs, none) := by
    have h2 := scanList_append recs [] fn hv hfn
    rw [scanList_short ([] : List Nat) fn (by decide)] at h2
    simpa using h2
  refine ⟨i1, _, _, hins, hmerge, hflush, rfl, ?_⟩
  rw [Indexer.Scan]
  have hfile : ({ { i1 with
      bw := { buf := encodeAll recs, file := [], err := none },
      ring := { i1.ring with rpos := i1.ring.wpos } } with
        bw := { buf := [], file := encodeAll recs, err := none } } :
      Indexer).bw.file = encodeAll recs := rfl
  rw [hfile, hscan]

/-- C7 witness: two records inserted into a fresh capacity-4 instance,
drained, flushed, and scanned back in order. -/
theorem order_preservation_witness :
    (([⟨1, 0, 100⟩, ⟨2, 128, 200⟩] : List Index).length ≤ 4) ∧
      (∀ ix ∈ ([⟨1, 0, 100⟩, ⟨2, 128, 200⟩] : List Index), validIndex ix) ∧
      (∃ i1 i2 i3,
        (NewIndexer [] 4 0).insertAll [⟨1, 0, 100⟩, ⟨2, 128, 200⟩] 0
            = (none, i1) ∧
          i1.merge = (none, i2) ∧
          i2.Flush = (none, i3) ∧
          i3.bw.file = encodeAll [⟨1, 0, 100⟩, ⟨2, 128, 200⟩] ∧
          i3.Scan i3.bw.file (fun _ => none)
            = (([⟨1, 0, 100⟩, ⟨2, 128, 200⟩], none), i3)) :=
  ⟨by decide, by decide,
    order_preservation 4 0 [⟨1, 0, 100⟩, ⟨2, 128, 200⟩] (fun _ => none)
      (by decide) (by decide) (fun _ => rfl)⟩

end Store
